import Mathlib

set_option maxRecDepth 100000

/-!
# Inchrosil DNA pipeline: codec, container and ingestion embeddings

Shallow embedding of the DNA ingestion and compression PoC (server
`dna_server.cpp`, offline packer `generate_binary_files.cpp`, codec demo
`dna_binary_decoder.cpp`, container reader `test_binary_files.cpp`).
Sequences are lists of characters, bytes are natural numbers below 256,
files are lists of bytes.  Each definition mirrors one source function;
theorems at the end settle the frozen claims about the pipeline.
-/

/-! ## Server (`dna_server.cpp`) -/

namespace DnaServer

/-- The switch inside `DNAServer::encodeToInchrosil`: two-bit code of one
nucleotide character, default branch (including N) yields 0. -/
def inchrosilBits (c : Char) : Nat :=
  if c = 'A' then 0
  else if c = 'C' then 1
  else if c = 'G' then 2
  else if c = 'T' then 3
  else 0

/-- The packing loop of `DNAServer::encodeToInchrosil`: `byte` and `bitPos`
are the running accumulator, each character contributes
`bits << (6 - bitPos)`; a full byte is emitted every four characters and a
trailing partial byte is emitted at the end. -/
def encodeToInchrosilAux : List Char → Nat → Nat → List Nat
  | [], byte, bitPos => if 0 < bitPos then [byte] else []
  | c :: rest, byte, bitPos =>
    if bitPos + 2 = 8 then
      (byte ||| (inchrosilBits c <<< (6 - bitPos))) :: encodeToInchrosilAux rest 0 0
    else
      encodeToInchrosilAux rest (byte ||| (inchrosilBits c <<< (6 - bitPos))) (bitPos + 2)

/-- `DNAServer::encodeToInchrosil`: MSB-first 2-bit packing, four
nucleotides per byte. -/
def encodeToInchrosil (s : List Char) : List Nat :=
  encodeToInchrosilAux s 0 0

/-- `NEONValidator::validate`, scalar reference path: every byte must be
one of the uppercase characters A, T, C, G, N.  The NEON path checks the
same predicate sixteen bytes at a time and accepts exactly the same
strings. -/
def validate (s : List Char) : Bool :=
  s.all fun c => c = 'A' || c = 'T' || c = 'C' || c = 'G' || c = 'N'

/-- One bit round of the software CRC32 fallback in
`HardwareCRC32::calculate`: `crc = (crc >> 1) ^ (0xEDB88320 & -(crc & 1))`,
where the mask is all-ones exactly when the low bit is set. -/
def crc32Step (crc : Nat) : Nat :=
  if crc % 2 = 1 then (crc >>> 1) ^^^ 0xEDB88320 else crc >>> 1

/-- Eight bit rounds. -/
def crc32Rounds : Nat → Nat → Nat
  | 0, crc => crc
  | j + 1, crc => crc32Rounds j (crc32Step crc)

/-- Per-byte update of the software CRC32 fallback: xor the byte into the
low bits, then run eight bit rounds. -/
def crc32Update (crc b : Nat) : Nat :=
  crc32Rounds 8 (crc ^^^ b)

/-- `HardwareCRC32::calculate` (software fallback path): initial value
0xFFFFFFFF, byte-at-a-time update, final complement.  The running value
stays below 2^32, so the final complement is `^^^ 0xFFFFFFFF`. -/
def crc32 (data : List Nat) : Nat :=
  (data.foldl crc32Update 0xFFFFFFFF) ^^^ 0xFFFFFFFF

/-- The C `isspace` class used by `processSequence` when stripping
whitespace: space, tab, newline, vertical tab, form feed, carriage
return. -/
def isspaceC (c : Char) : Bool :=
  c = ' ' || c = '\t' || c = '\n' || c = Char.ofNat 11 || c = Char.ofNat 12 || c = '\r'

/-- The `remove_if(..., ::isspace)` call in `DNAServer::processSequence`. -/
def removeWhitespace (s : List Char) : List Char :=
  s.filter fun c => !isspaceC c

/-- The fields of `DNASequence` that the processing pipeline reads (the
id, client and timestamp fields never influence validation, encoding or
the stored payload). -/
structure DNASequence where
  format : String
  sequence : List Char
deriving DecidableEq

/-- `data.substr(seqStart + 1)` where `seqStart` is the position of the
first newline: everything after the first newline. -/
def afterFirstNewline (data : List Char) : List Char :=
  (data.dropWhile fun c => !(c = '\n')).tail

/-- `DNAServer::processSequence`: format detection on the first character,
sequence extraction, then whitespace stripping.  A FASTA line keeps the
part after the first contained newline (nothing when the line has no
newline); a FASTQ line keeps the part between the first and second
newlines; any other line is taken whole as RAW. -/
def processSequence (data : List Char) : DNASequence :=
  let parsed : String × List Char :=
    match data with
    | [] => ("RAW", [])
    | c :: _ =>
      if c = '>' then
        ("FASTA", if '\n' ∈ data then afterFirstNewline data else [])
      else if c = '@' then
        ("FASTQ",
          if '\n' ∈ data then
            if '\n' ∈ afterFirstNewline data then
              (afterFirstNewline data).takeWhile fun x => !(x = '\n')
            else []
          else [])
      else ("RAW", data)
  { format := parsed.1, sequence := removeWhitespace parsed.2 }

/-- Stream-building helper for theorem statements: each listed line
followed by a newline, the framing a client uses on the wire. -/
def joinLines : List (List Char) → List Char
  | [] => []
  | l :: ls => l ++ '\n' :: joinLines ls

/-- The newline-splitting loop of `DNAServer::handleClient`: `acc` is the
line accumulated so far; a newline emits the accumulated line; characters
after the last newline are never processed. -/
def linesAux : List Char → List Char → List (List Char)
  | [], _ => []
  | c :: rest, acc =>
    if c = '\n' then acc :: linesAux rest []
    else linesAux rest (acc ++ [c])

/-- All complete (newline-terminated) lines of a received stream. -/
def completeLines (s : List Char) : List (List Char) :=
  linesAux s []

/-- The records the server enqueues for a received stream: each complete
non-empty line goes through `processSequence`. -/
def serverRecords (stream : List Char) : List DNASequence :=
  ((completeLines stream).filter fun l => !l.isEmpty).map processSequence

/-- The content of one `dna_output_<id>.ich` file written by
`DNAServer::storeSequence`: the textual header fields that depend on the
record, followed by the packed payload. -/
structure StoredFile where
  format : String
  lengthField : Nat
  checksumField : Nat
  payload : List Nat
deriving DecidableEq

/-- The file `DNAServer::storeSequence` writes for a validated record:
`Length` is the character count of the sequence, the checksum is the CRC32
of the sequence bytes, the payload is the 2-bit encoding. -/
def mkStoredFile (seq : DNASequence) : StoredFile :=
  { format := seq.format
    lengthField := seq.sequence.length
    checksumField := crc32 (seq.sequence.map Char.toNat)
    payload := encodeToInchrosil seq.sequence }

/-- The error counters a worker touches. -/
structure WorkerCounters where
  validationErrors : Nat
  processingErrors : Nat
deriving DecidableEq

/-- One iteration of `DNAServer::processingWorker` on a popped record: an
invalid sequence only bumps the validation-error counter; a valid one is
checksummed, encoded and stored.  (The storage-error branch models an I/O
failure and never fires in the pure embedding.) -/
def processingWorkerStep (seq : DNASequence) (st : WorkerCounters)
    (files : List StoredFile) : WorkerCounters × List StoredFile :=
  if validate seq.sequence then (st, files ++ [mkStoredFile seq])
  else ({ st with validationErrors := st.validationErrors + 1 }, files)

end DnaServer

/-! ## Offline packer (`generate_binary_files.cpp`) -/

namespace GenerateBinaryFiles

/-- The switch inside the packer `encodeDNA`: note the table is
A=00, T=01, G=10, C=11 (upper or lower case), default 0. -/
def packerBits (c : Char) : Nat :=
  if c = 'A' || c = 'a' then 0
  else if c = 'T' || c = 't' then 1
  else if c = 'G' || c = 'g' then 2
  else if c = 'C' || c = 'c' then 3
  else 0

/-- The packer `encodeDNA`: a zero vector of `(len + 3) / 4` bytes, then
for each index `i` the two-bit code is ORed into byte `i / 4` at bit
position `(3 - i % 4) * 2` (MSB first). -/
def encodeDNA (s : List Char) : List Nat :=
  (List.range s.length).foldl
    (fun enc i =>
      enc.set (i / 4) ((enc.getD (i / 4) 0) ||| (packerBits (s.getD i ' ') <<< ((3 - i % 4) * 2))))
    (List.replicate ((s.length + 3) / 4) 0)

/-- One FASTA record as read by `readFASTA`. -/
structure FastaSequence where
  name : List Char
  sequence : List Char
deriving DecidableEq

/-- A `uint32_t` written little-endian, as four bytes. -/
def u32le (n : Nat) : List Nat :=
  [n % 256, n / 2 ^ 8 % 256, n / 2 ^ 16 % 256, n / 2 ^ 24 % 256]

/-- A `uint64_t` written little-endian, as eight bytes. -/
def u64le (n : Nat) : List Nat :=
  [n % 256, n / 2 ^ 8 % 256, n / 2 ^ 16 % 256, n / 2 ^ 24 % 256,
   n / 2 ^ 32 % 256, n / 2 ^ 40 % 256, n / 2 ^ 48 % 256, n / 2 ^ 56 % 256]

/-- The bytes `memcpy(header.magic, "INCHROSIL", 8)` stores in the 8-byte
magic field: the first eight characters of the nine-character literal. -/
def magicBytes : List Nat :=
  ("INCHROSIL".toList.take 8).map Char.toNat

/-- `sizeof(BinaryHeader)` for the packed struct:
`char magic[8]` + `uint32_t` + three `uint64_t` + `char reserved[32]`. -/
def sizeofBinaryHeader : Nat := 8 + 4 + 8 + 8 + 8 + 32

/-- `sizeof(SequenceInfo)` for the packed struct:
two `uint64_t` + `char name[256]`. -/
def sizeofSequenceInfo : Nat := 8 + 8 + 256

/-- Sum of all sequence lengths, as computed by `generateBinaryFile`. -/
def totalBases (seqs : List FastaSequence) : Nat :=
  (seqs.map fun s => s.sequence.length).sum

/-- Sum of all encoded payload sizes, as computed by
`generateBinaryFile`. -/
def compressedSize (seqs : List FastaSequence) : Nat :=
  (seqs.map fun s => (encodeDNA s.sequence).length).sum

/-- The 64 bytes the writer emits for `BinaryHeader` (in declaration
order of the packed struct): magic, version 1, counts, 32 reserved zero
bytes. -/
def headerBytes (seqs : List FastaSequence) : List Nat :=
  magicBytes ++ u32le 1 ++ u64le seqs.length ++ u64le (totalBases seqs) ++
    u64le (compressedSize seqs) ++ List.replicate 32 0

/-- The `name[256]` field: `strncpy` of at most 255 characters into a
zeroed buffer of 256 bytes. -/
def nameField (name : List Char) : List Nat :=
  (name.take 255).map Char.toNat ++ List.replicate (256 - (name.take 255).length) 0

/-- One serialized `SequenceInfo` slot: length in bases, payload offset,
name field. -/
def serializeInfo (len off : Nat) (name : List Char) : List Nat :=
  u64le len ++ u64le off ++ nameField name

/-- The metadata-writing loop of `generateBinaryFile`: `off` is the
running `data_offset`, advanced by each encoded payload size. -/
def metadataBytesAux : List FastaSequence → Nat → List Nat
  | [], _ => []
  | s :: rest, off =>
    serializeInfo s.sequence.length off s.name ++
      metadataBytesAux rest (off + (encodeDNA s.sequence).length)

/-- All serialized `SequenceInfo` slots, offsets starting at zero. -/
def metadataBytes (seqs : List FastaSequence) : List Nat :=
  metadataBytesAux seqs 0

/-- The payload region: every encoded sequence, in order, tightly
packed. -/
def payloadBytes (seqs : List FastaSequence) : List Nat :=
  (seqs.map fun s => encodeDNA s.sequence).flatten

/-- The full byte content of the `.bin` container written by
`generateBinaryFile`: header, metadata slots, payloads. -/
def generateBinaryFile (seqs : List FastaSequence) : List Nat :=
  headerBytes seqs ++ metadataBytes seqs ++ payloadBytes seqs

end GenerateBinaryFiles

/-! ## Codec demo (`dna_binary_decoder.cpp`) -/

namespace DnaBinaryDecoder

/-- The `Nucleotide` enum. -/
inductive Nucleotide
  | A
  | T
  | G
  | C
deriving DecidableEq

/-- `charToNucleotide`: upper or lower case, default A. -/
def charToNucleotide (c : Char) : Nucleotide :=
  if c = 'A' || c = 'a' then .A
  else if c = 'T' || c = 't' then .T
  else if c = 'G' || c = 'g' then .G
  else if c = 'C' || c = 'c' then .C
  else .A

/-- `nucleotideToChar` (the `default` branch returning N is unreachable:
all four enum values are covered). -/
def nucleotideToChar : Nucleotide → Char
  | .A => 'A'
  | .T => 'T'
  | .G => 'G'
  | .C => 'C'

/-- The numeric value of the enum, `static_cast<uint8_t>(nt)`. -/
def nucleotideVal : Nucleotide → Nat
  | .A => 0
  | .T => 1
  | .G => 2
  | .C => 3

/-- `static_cast<Nucleotide>(bits)` for `bits < 4` (the argument is always
masked with `0b11`). -/
def nucleotideOfBits : Nat → Nucleotide
  | 0 => .A
  | 1 => .T
  | 2 => .G
  | _ => .C

/-- The inner loop of the demo `encodeDNA`: positions `j = 0..3` of one
chunk contribute `code << (6 - j*2)`. -/
def chunkByteAux : List Char → Nat → Nat → Nat
  | [], _, byte => byte
  | c :: rest, j, byte =>
    if j < 4 then
      chunkByteAux rest (j + 1) (byte ||| (nucleotideVal (charToNucleotide c) <<< (6 - j * 2)))
    else byte

/-- The demo `encodeDNA`: the outer loop advances four characters at a
time and emits one byte per chunk, including a final partial chunk of
one, two or three characters. -/
def encodeDNA : List Char → List Nat
  | [] => []
  | [a] => [chunkByteAux [a] 0 0]
  | [a, b] => [chunkByteAux [a, b] 0 0]
  | [a, b, c] => [chunkByteAux [a, b, c] 0 0]
  | a :: b :: c :: d :: rest => chunkByteAux [a, b, c, d] 0 0 :: encodeDNA rest

/-- The inner loop of the demo `decodeDNA`: up to four nucleotides out of
one byte, stopping when `length` is reached. -/
def decodeByte (byte rem : Nat) : List Char :=
  (List.range (min 4 rem)).map fun j =>
    nucleotideToChar (nucleotideOfBits ((byte >>> (6 - j * 2)) &&& 3))

/-- The outer loop of the demo `decodeDNA`: `rem` counts the nucleotides
still to produce; the loop breaks once it reaches zero. -/
def decodeDNAAux : List Nat → Nat → List Char
  | [], _ => []
  | _ :: _, 0 => []
  | b :: bs, rem + 1 =>
    decodeByte b (rem + 1) ++ decodeDNAAux bs (rem + 1 - min 4 (rem + 1))

/-- The demo `decodeDNA`. -/
def decodeDNA (encoded : List Nat) (length : Nat) : List Char :=
  decodeDNAAux encoded length

end DnaBinaryDecoder

/-! ## Container reader (`test_binary_files.cpp`) -/

namespace TestBinaryFiles

/-- Little-endian read of a `uint64_t` at byte offset `off`. -/
def readU64 (file : List Nat) (off : Nat) : Nat :=
  ((file.drop off).take 8).enum.foldl (fun acc p => acc + p.2 * 2 ^ (8 * p.1)) 0

/-- Little-endian read of the `uint32_t` version field. -/
def readU32 (file : List Nat) (off : Nat) : Nat :=
  ((file.drop off).take 4).enum.foldl (fun acc p => acc + p.2 * 2 ^ (8 * p.1)) 0

/-- The magic validation in `testBinaryFile`:
`memcmp(header.magic, "INCHROSIL", 8)` compares the first eight file bytes
against the first eight characters of the nine-character literal. -/
def magicOK (file : List Nat) : Bool :=
  file.take 8 = ("INCHROSIL".toList.take 8).map Char.toNat

/-- The `version` header field as the reader sees it. -/
def versionField (file : List Nat) : Nat :=
  readU32 file 8

/-- The `sequence_count` header field as the reader sees it. -/
def sequenceCount (file : List Nat) : Nat :=
  readU64 file 12

/-- The `total_bases` header field as the reader sees it. -/
def totalBasesField (file : List Nat) : Nat :=
  readU64 file 20

/-- The `compressed_size` header field as the reader sees it. -/
def compressedSizeField (file : List Nat) : Nat :=
  readU64 file 28

/-- The `length` field of metadata slot `i`. -/
def infoLength (file : List Nat) (i : Nat) : Nat :=
  readU64 file (GenerateBinaryFiles.sizeofBinaryHeader + GenerateBinaryFiles.sizeofSequenceInfo * i)

/-- The `offset` field of metadata slot `i`. -/
def infoOffset (file : List Nat) (i : Nat) : Nat :=
  readU64 file (GenerateBinaryFiles.sizeofBinaryHeader + GenerateBinaryFiles.sizeofSequenceInfo * i + 8)

/-- The reader `decodeDNA`: nucleotide `i` comes from byte `i / 4` at bit
position `(3 - i % 4) * 2`, with the table 0=A, 1=T, 2=G, 3=C. -/
def decodeDNA (encoded : List Nat) (length : Nat) : List Char :=
  (List.range length).map fun i =>
    let bits := (encoded.getD (i / 4) 0 >>> ((3 - i % 4) * 2)) &&& 3
    if bits = 0 then 'A'
    else if bits = 1 then 'T'
    else if bits = 2 then 'G'
    else 'C'

/-- The verification step of `testBinaryFile` generalized from the
hardcoded first record to slot `i`: seek to
`sizeof(BinaryHeader) + sequence_count * sizeof(SequenceInfo) + offset`,
read `(length + 3) / 4` bytes and decode.  The tool itself runs this only
for `i = 0`. -/
def readRecord (file : List Nat) (i : Nat) : List Char :=
  let len := infoLength file i
  let start := GenerateBinaryFiles.sizeofBinaryHeader +
    sequenceCount file * GenerateBinaryFiles.sizeofSequenceInfo + infoOffset file i
  decodeDNA ((file.drop start).take ((len + 3) / 4)) len

/-- What `testBinaryFile` reconstructs from a container: nothing when the
magic check fails; otherwise only the first sequence (its verification
pass decodes `sequences[0]` alone). -/
def testReconstruct (file : List Nat) : Option (List (List Char)) :=
  if magicOK file then
    some (if 0 < sequenceCount file then [readRecord file 0] else [])
  else none

end TestBinaryFiles

/-! ## Reference definitions taken from the specification text -/

/-- Modelled from the spec: the authoritative two-bit code table the
claims quote, `code(A)=0, code(C)=1, code(G)=2, code(T)=3`. -/
def specCode2bit (c : Char) : Nat :=
  if c = 'A' then 0
  else if c = 'C' then 1
  else if c = 'G' then 2
  else if c = 'T' then 3
  else 0

/-- The code table the offline packer actually uses, as a standalone
reference table: `A=0, T=1, G=2, C=3` (stated by the amended claim). -/
def packerCode2bit (c : Char) : Nat :=
  if c = 'A' then 0
  else if c = 'T' then 1
  else if c = 'G' then 2
  else if c = 'C' then 3
  else 0

/-! ## Concrete demonstration inputs -/

/-- The two-record FASTA input of the container round-trip scenario:
`seq1 = ACGT`, `seq2 = TTTT`. -/
def demoSeqs : List GenerateBinaryFiles.FastaSequence :=
  [⟨"seq1".toList, "ACGT".toList⟩, ⟨"seq2".toList, "TTTT".toList⟩]

/-- The container the offline packer writes for `demoSeqs`. -/
def demoFile : List Nat :=
  GenerateBinaryFiles.generateBinaryFile demoSeqs

/-! ## Byte-layout lemmas for the binary container -/

theorem u32le_length (n : Nat) : (GenerateBinaryFiles.u32le n).length = 4 := rfl

theorem u64le_length (n : Nat) : (GenerateBinaryFiles.u64le n).length = 8 := rfl

theorem nameField_length (name : List Char) :
    (GenerateBinaryFiles.nameField name).length = 256 := by
  have h : (name.take 255).length ≤ 255 := by
    simp only [List.length_take]
    exact Nat.min_le_left _ _
  simp only [GenerateBinaryFiles.nameField, List.length_append, List.length_map,
    List.length_replicate]
  omega

theorem serializeInfo_length (len off : Nat) (name : List Char) :
    (GenerateBinaryFiles.serializeInfo len off name).length = 272 := by
  simp [GenerateBinaryFiles.serializeInfo, u64le_length, nameField_length]

theorem metadataBytesAux_length (seqs : List GenerateBinaryFiles.FastaSequence) :
    ∀ off, (GenerateBinaryFiles.metadataBytesAux seqs off).length = 272 * seqs.length := by
  induction seqs with
  | nil => intro off; simp [GenerateBinaryFiles.metadataBytesAux]
  | cons s rest ih =>
    intro off
    simp only [GenerateBinaryFiles.metadataBytesAux, List.length_append, ih,
      serializeInfo_length, List.length_cons]
    ring

/-- C9: the checksum function implements the standard reflected CRC-32
(polynomial 0xEDB88320, initial value 0xFFFFFFFF, final XOR 0xFFFFFFFF);
applied to the nine ASCII bytes of "123456789" it returns 0xCBF43926, the
standard CRC-32/ISO-HDLC check vector. -/
theorem crc32_check_vector :
    DnaServer.crc32 ("123456789".toList.map Char.toNat) = 0xCBF43926 := by
  decide

/-- C3 evaluation: the container writer truncates the nine-character
literal "INCHROSIL" to the eight bytes "INCHROSI" in the magic field (its
own field comment announces "INCHRSIL"), and the reader accepts exactly
those eight bytes, rejecting a file whose magic is "INCHRSIL". -/
theorem magic_is_truncated_INCHROSI :
    GenerateBinaryFiles.magicBytes = "INCHROSI".toList.map Char.toNat ∧
    GenerateBinaryFiles.magicBytes ≠ "INCHRSIL".toList.map Char.toNat ∧
    demoFile.take 8 = GenerateBinaryFiles.magicBytes ∧
    TestBinaryFiles.magicOK demoFile = true ∧
    TestBinaryFiles.magicOK ("INCHRSIL".toList.map Char.toNat ++ demoFile.drop 8) = false := by
  decide

/-- C4 counterexample: on a concrete container the fixed header is not 64
bytes and a metadata slot is not 280 bytes. -/
theorem header_not_64_slot_not_280 :
    (GenerateBinaryFiles.headerBytes demoSeqs).length ≠ 64 ∧
    (GenerateBinaryFiles.serializeInfo 4 0 "seq1".toList).length ≠ 280 := by
  decide

/-- C4 (amended): in every binary container the program writes or reads,
the fixed header occupies exactly 68 bytes (the packed `BinaryHeader`),
each metadata slot exactly 272 bytes (the packed `SequenceInfo`), and the
payload region begins at byte offset `68 + 272 * sequence_count`. -/
theorem container_layout (seqs : List GenerateBinaryFiles.FastaSequence) :
    (GenerateBinaryFiles.headerBytes seqs).length = GenerateBinaryFiles.sizeofBinaryHeader ∧
    GenerateBinaryFiles.sizeofBinaryHeader = 68 ∧
    (GenerateBinaryFiles.metadataBytes seqs).length =
      GenerateBinaryFiles.sizeofSequenceInfo * seqs.length ∧
    GenerateBinaryFiles.sizeofSequenceInfo = 272 ∧
    GenerateBinaryFiles.generateBinaryFile seqs =
      GenerateBinaryFiles.headerBytes seqs ++ GenerateBinaryFiles.metadataBytes seqs ++
        GenerateBinaryFiles.payloadBytes seqs := by
  refine ⟨?_, rfl, ?_, rfl, rfl⟩
  · simp [GenerateBinaryFiles.headerBytes, GenerateBinaryFiles.magicBytes,
      u32le_length, u64le_length, GenerateBinaryFiles.sizeofBinaryHeader]
  · simpa [GenerateBinaryFiles.metadataBytes, GenerateBinaryFiles.sizeofSequenceInfo] using
      metadataBytesAux_length seqs 0

/-- C5 counterexample: for the raw input line "ATCGATCGATCGATCG" the file
the worker persists does not carry the payload 0x1B 0x1B 0x1B 0x1B. -/
theorem raw_line_payload_not_1B :
    ((DnaServer.processingWorkerStep
        (DnaServer.processSequence "ATCGATCGATCGATCG".toList) ⟨0, 0⟩ []).2.map
      DnaServer.StoredFile.payload) ≠ [[0x1B, 0x1B, 0x1B, 0x1B]] := by
  decide

/-- C5 (amended): for the input line "ATCGATCGATCGATCG" received as a raw
record, the server persists a file whose packed payload is exactly the
four bytes 0x36 0x36 0x36 0x36 and whose header Length field is 16. -/
theorem raw_line_persisted_file :
    (DnaServer.processingWorkerStep
        (DnaServer.processSequence "ATCGATCGATCGATCG".toList) ⟨0, 0⟩ []).2 =
      [{ format := "RAW", lengthField := 16,
         checksumField := DnaServer.crc32 ("ATCGATCGATCGATCG".toList.map Char.toNat),
         payload := [0x36, 0x36, 0x36, 0x36] }] := by
  decide

/-- C6 counterexample: applied to the packed container for seq1=ACGT,
seq2=TTTT, the reader tool does not reconstruct both sequences — its
verification pass decodes only the first record. -/
theorem reader_does_not_reconstruct_both :
    TestBinaryFiles.testReconstruct demoFile ≠ some ["ACGT".toList, "TTTT".toList] := by
  decide

/-- C6 (amended): the packed container for seq1=ACGT, seq2=TTTT carries
sequence_count=2, total_bases=8, compressed_size=2; the reader tool
reconstructs only the first sequence, ACGT, exactly, and its decode
routine applied to the second record reconstructs TTTT exactly. -/
theorem container_roundtrip_demo :
    TestBinaryFiles.sequenceCount demoFile = 2 ∧
    TestBinaryFiles.totalBasesField demoFile = 8 ∧
    TestBinaryFiles.compressedSizeField demoFile = 2 ∧
    TestBinaryFiles.testReconstruct demoFile = some ["ACGT".toList] ∧
    TestBinaryFiles.readRecord demoFile 0 = "ACGT".toList ∧
    TestBinaryFiles.readRecord demoFile 1 = "TTTT".toList := by
  decide

/-- C1 counterexample: on the sequence CCCC the offline packer encoder
does not produce the byte prescribed by the claimed table
code(A)=0, code(C)=1, code(G)=2, code(T)=3. -/
theorem packer_encoder_differs_from_spec_table :
    GenerateBinaryFiles.encodeDNA ['C', 'C', 'C', 'C'] ≠
      [(specCode2bit 'C' <<< 6) ||| (specCode2bit 'C' <<< 4) |||
        (specCode2bit 'C' <<< 2) ||| specCode2bit 'C'] := by
  decide

/-- C1 (amended): for every sequence of length 4 over A,C,G,T the server
encoder produces the single byte
`(code(s0) << 6) | (code(s1) << 4) | (code(s2) << 2) | code(s3)` with the
table A=0, C=1, G=2, T=3, while the offline packer encoder produces the
byte given by the same MSB-first formula but with its own table
A=0, T=1, G=2, C=3. -/
theorem encoders_pack_msb_first (a b c d : Char)
    (ha : a = 'A' ∨ a = 'C' ∨ a = 'G' ∨ a = 'T')
    (hb : b = 'A' ∨ b = 'C' ∨ b = 'G' ∨ b = 'T')
    (hc : c = 'A' ∨ c = 'C' ∨ c = 'G' ∨ c = 'T')
    (hd : d = 'A' ∨ d = 'C' ∨ d = 'G' ∨ d = 'T') :
    DnaServer.encodeToInchrosil [a, b, c, d] =
      [(specCode2bit a <<< 6) ||| (specCode2bit b <<< 4) |||
        (specCode2bit c <<< 2) ||| specCode2bit d] ∧
    GenerateBinaryFiles.encodeDNA [a, b, c, d] =
      [(packerCode2bit a <<< 6) ||| (packerCode2bit b <<< 4) |||
        (packerCode2bit c <<< 2) ||| packerCode2bit d] := by
  rcases ha with rfl | rfl | rfl | rfl <;> rcases hb with rfl | rfl | rfl | rfl <;>
    rcases hc with rfl | rfl | rfl | rfl <;> rcases hd with rfl | rfl | rfl | rfl <;>
    exact ⟨by decide, by decide⟩

/-- C1 witness: the amended packing statement evaluated on ACGT. -/
theorem encoders_pack_msb_first_witness :
    ('A' = 'A' ∨ 'A' = 'C' ∨ 'A' = 'G' ∨ 'A' = 'T') ∧
    ('C' = 'A' ∨ 'C' = 'C' ∨ 'C' = 'G' ∨ 'C' = 'T') ∧
    ('G' = 'A' ∨ 'G' = 'C' ∨ 'G' = 'G' ∨ 'G' = 'T') ∧
    ('T' = 'A' ∨ 'T' = 'C' ∨ 'T' = 'G' ∨ 'T' = 'T') ∧
    (DnaServer.encodeToInchrosil ['A', 'C', 'G', 'T'] =
      [(specCode2bit 'A' <<< 6) ||| (specCode2bit 'C' <<< 4) |||
        (specCode2bit 'G' <<< 2) ||| specCode2bit 'T'] ∧
    GenerateBinaryFiles.encodeDNA ['A', 'C', 'G', 'T'] =
      [(packerCode2bit 'A' <<< 6) ||| (packerCode2bit 'C' <<< 4) |||
        (packerCode2bit 'G' <<< 2) ||| packerCode2bit 'T']) :=
  ⟨Or.inl rfl, Or.inr (Or.inl rfl), Or.inr (Or.inr (Or.inl rfl)),
   Or.inr (Or.inr (Or.inr rfl)),
   encoders_pack_msb_first 'A' 'C' 'G' 'T' (by decide) (by decide) (by decide) (by decide)⟩

/-- C8: a record whose sequence contains a byte outside the uppercase set
A, C, G, T, N is rejected by the worker: the validation-error counter
increases by exactly one, no file is written for it, and the other worker
counter is untouched. -/
theorem worker_rejects_invalid (seq : DnaServer.DNASequence)
    (st : DnaServer.WorkerCounters) (files : List DnaServer.StoredFile)
    (h : ∃ c ∈ seq.sequence, ¬(c = 'A' ∨ c = 'T' ∨ c = 'C' ∨ c = 'G' ∨ c = 'N')) :
    (DnaServer.processingWorkerStep seq st files).1.validationErrors =
      st.validationErrors + 1 ∧
    (DnaServer.processingWorkerStep seq st files).1.processingErrors =
      st.processingErrors ∧
    (DnaServer.processingWorkerStep seq st files).2 = files := by
  have hv : DnaServer.validate seq.sequence = false := by
    rcases h with ⟨c, hmem, hne⟩
    rw [DnaServer.validate, List.all_eq_false]
    refine ⟨c, hmem, ?_⟩
    push_neg at hne
    simp [hne.1, hne.2.1, hne.2.2.1, hne.2.2.2.1, hne.2.2.2.2]
  simp [DnaServer.processingWorkerStep, hv]

/-- C8 witness: the rejection statement evaluated on the record ATCGX. -/
theorem worker_rejects_invalid_witness :
    (∃ c ∈ "ATCGX".toList, ¬(c = 'A' ∨ c = 'T' ∨ c = 'C' ∨ c = 'G' ∨ c = 'N')) ∧
    ((DnaServer.processingWorkerStep ⟨"RAW", "ATCGX".toList⟩ ⟨0, 0⟩ []).1.validationErrors =
        0 + 1 ∧
      (DnaServer.processingWorkerStep ⟨"RAW", "ATCGX".toList⟩ ⟨0, 0⟩ []).1.processingErrors = 0 ∧
      (DnaServer.processingWorkerStep ⟨"RAW", "ATCGX".toList⟩ ⟨0, 0⟩ []).2 = []) :=
  ⟨by decide, worker_rejects_invalid ⟨"RAW", "ATCGX".toList⟩ ⟨0, 0⟩ [] (by decide)⟩

/-- A line that starts with the FASTA marker and contains no newline
parses to a FASTA record with empty sequence. -/
theorem processSequence_fasta_header (rest : List Char) (h : '\n' ∉ rest) :
    DnaServer.processSequence ('>' :: rest) =
      { format := "FASTA", sequence := [] } := by
  simp [DnaServer.processSequence, DnaServer.removeWhitespace, h]

/-- C10: every incoming line that begins with the FASTA marker yields a
record with format FASTA and empty sequence (the line contains no newline,
so the header-line parse extracts nothing); the empty sequence passes
validation vacuously and the worker persists a file whose Length field is
0 with a zero-byte payload. -/
theorem fasta_header_line_empty_record (rest : List Char) (h : '\n' ∉ rest) :
    DnaServer.processSequence ('>' :: rest) =
      { format := "FASTA", sequence := [] } ∧
    DnaServer.validate ([] : List Char) = true ∧
    ∀ st files,
      DnaServer.processingWorkerStep { format := "FASTA", sequence := [] } st files =
        (st, files ++ [{ format := "FASTA", lengthField := 0,
                         checksumField := DnaServer.crc32 [], payload := [] }]) := by
  exact ⟨processSequence_fasta_header rest h, rfl, fun st files => rfl⟩

/-- C10 witness: the header-line statement evaluated on the line >seq1. -/
theorem fasta_header_line_empty_record_witness :
    ('\n' ∉ "seq1".toList) ∧
    (DnaServer.processSequence ('>' :: "seq1".toList) =
        { format := "FASTA", sequence := [] } ∧
      DnaServer.validate ([] : List Char) = true ∧
      ∀ st files,
        DnaServer.processingWorkerStep { format := "FASTA", sequence := [] } st files =
          (st, files ++ [{ format := "FASTA", lengthField := 0,
                           checksumField := DnaServer.crc32 [], payload := [] }])) :=
  ⟨by decide, fasta_header_line_empty_record "seq1".toList (by decide)⟩

/-! ## Frame-parser lemmas -/

theorem linesAux_append (pre rest : List Char) (hpre : '\n' ∉ pre) :
    ∀ acc, DnaServer.linesAux (pre ++ '\n' :: rest) acc =
      (acc ++ pre) :: DnaServer.linesAux rest [] := by
  induction pre with
  | nil => intro acc; simp [DnaServer.linesAux]
  | cons c cs ih =>
    intro acc
    have hc : ¬ c = '\n' := by
      intro hEq
      exact hpre (by simp [hEq])
    have hcs : '\n' ∉ cs := fun hmem => hpre (List.mem_cons_of_mem _ hmem)
    simp only [List.cons_append, DnaServer.linesAux, if_neg hc]
    show DnaServer.linesAux (cs ++ '\n' :: rest) (acc ++ [c]) =
      (acc ++ c :: cs) :: DnaServer.linesAux rest []
    rw [ih hcs (acc ++ [c])]
    simp [List.append_assoc]

theorem completeLines_joinLines (body : List (List Char))
    (hb : ∀ l ∈ body, '\n' ∉ l) :
    DnaServer.completeLines (DnaServer.joinLines body) = body := by
  induction body with
  | nil => rfl
  | cons l ls ih =>
    have hl : '\n' ∉ l := hb l (by simp)
    have hls : ∀ x ∈ ls, '\n' ∉ x := fun x hx => hb x (by simp [hx])
    show DnaServer.linesAux (l ++ '\n' :: DnaServer.joinLines ls) [] = l :: ls
    rw [linesAux_append l _ hl []]
    simp only [List.nil_append]
    exact congrArg (l :: ·) (ih hls)

/-- C7 counterexample: feeding the stream of one FASTA header line
followed by two sequence lines, the server emits three records, none of
which carries the aggregated sequence ACGTGGGG. -/
theorem multiline_fasta_not_aggregated :
    (DnaServer.serverRecords ">r1\nACGT\nGGGG\n".toList).length = 3 ∧
    ¬ ∃ r ∈ DnaServer.serverRecords ">r1\nACGT\nGGGG\n".toList,
        r.sequence = "ACGTGGGG".toList := by
  decide

/-- C7 (amended): for every FASTA stream in which one record spans the
header line and several sequence lines, the server emits one record per
line — a FASTA record with empty sequence for the header line and a
separate RAW record for each sequence line; the lines are never merged
into one record. -/
theorem multiline_fasta_one_record_per_line (hdr : List Char)
    (body : List (List Char)) (hhdr : '\n' ∉ hdr) (hlen : 2 ≤ body.length)
    (hbody : ∀ l ∈ body,
      l ≠ [] ∧ '\n' ∉ l ∧ l.head? ≠ some '>' ∧ l.head? ≠ some '@') :
    DnaServer.serverRecords (('>' :: hdr) ++ '\n' :: DnaServer.joinLines body) =
      { format := "FASTA", sequence := [] } ::
        body.map fun l => { format := "RAW", sequence := DnaServer.removeWhitespace l } := by
  have hpre : '\n' ∉ ('>' :: hdr) := by
    intro hmem
    rcases List.mem_cons.mp hmem with hEq | hmem2
    · exact absurd hEq (by decide)
    · exact hhdr hmem2
  have hlines : DnaServer.completeLines (('>' :: hdr) ++ '\n' :: DnaServer.joinLines body) =
      ('>' :: hdr) :: body := by
    show DnaServer.linesAux _ [] = _
    rw [linesAux_append _ _ hpre []]
    simp only [List.nil_append]
    exact congrArg (('>' :: hdr) :: ·)
      (completeLines_joinLines body fun l hl => (hbody l hl).2.1)
  rw [DnaServer.serverRecords, hlines]
  have hfilter : (( ('>' :: hdr) :: body).filter fun l => !l.isEmpty) =
      ('>' :: hdr) :: body := by
    rw [List.filter_eq_self]
    intro l hl
    rcases List.mem_cons.mp hl with rfl | hmem
    · rfl
    · rcases hbody l hmem with ⟨hne, _, _, _⟩
      cases l with
      | nil => exact absurd rfl hne
      | cons x xs => rfl
  rw [hfilter]
  simp only [List.map_cons]
  rw [processSequence_fasta_header hdr hhdr]
  refine congrArg _ (List.map_congr_left ?_)
  intro l hl
  rcases hbody l hl with ⟨hne, _, hgt, hat⟩
  cases l with
  | nil => exact absurd rfl hne
  | cons x xs =>
    have hx1 : ¬ x = '>' := by
      intro hEq
      exact hgt (by simp [hEq])
    have hx2 : ¬ x = '@' := by
      intro hEq
      exact hat (by simp [hEq])
    simp [DnaServer.processSequence, hx1, hx2]

/-- C7 witness: the per-line statement evaluated on header r1 and body
lines ACGT, GGGG. -/
theorem multiline_fasta_one_record_per_line_witness :
    ('\n' ∉ "r1".toList) ∧
    2 ≤ ([("ACGT".toList : List Char), "GGGG".toList]).length ∧
    (∀ l ∈ [("ACGT".toList : List Char), "GGGG".toList],
      l ≠ [] ∧ '\n' ∉ l ∧ l.head? ≠ some '>' ∧ l.head? ≠ some '@') ∧
    DnaServer.serverRecords (('>' :: "r1".toList) ++ '\n' ::
        DnaServer.joinLines [("ACGT".toList : List Char), "GGGG".toList]) =
      { format := "FASTA", sequence := [] } ::
        ([("ACGT".toList : List Char), "GGGG".toList]).map fun l =>
          { format := "RAW", sequence := DnaServer.removeWhitespace l } :=
  ⟨by decide, by decide, by decide,
   multiline_fasta_one_record_per_line "r1".toList
     [("ACGT".toList : List Char), "GGGG".toList] (by decide) (by decide) (by decide)⟩

/-! ## Codec round-trip lemmas -/

theorem decodeByte_of_four_le (byte rem : Nat) (h : 4 ≤ rem) :
    DnaBinaryDecoder.decodeByte byte rem = DnaBinaryDecoder.decodeByte byte 4 := by
  rw [DnaBinaryDecoder.decodeByte, DnaBinaryDecoder.decodeByte, Nat.min_eq_left h,
    Nat.min_self]

theorem decodeDNAAux_cons (b : Nat) (bs : List Nat) (m : Nat) :
    DnaBinaryDecoder.decodeDNAAux (b :: bs) (m + 4) =
      DnaBinaryDecoder.decodeByte b 4 ++ DnaBinaryDecoder.decodeDNAAux bs m := by
  show DnaBinaryDecoder.decodeByte b (m + 4) ++
      DnaBinaryDecoder.decodeDNAAux bs (m + 4 - min 4 (m + 4)) = _
  rw [decodeByte_of_four_le b (m + 4) (by omega), Nat.min_eq_left (by omega),
    Nat.add_sub_cancel]

theorem decode_chunk4 (a b c d : Char)
    (ha : a = 'A' ∨ a = 'C' ∨ a = 'G' ∨ a = 'T')
    (hb : b = 'A' ∨ b = 'C' ∨ b = 'G' ∨ b = 'T')
    (hc : c = 'A' ∨ c = 'C' ∨ c = 'G' ∨ c = 'T')
    (hd : d = 'A' ∨ d = 'C' ∨ d = 'G' ∨ d = 'T') :
    DnaBinaryDecoder.decodeByte (DnaBinaryDecoder.chunkByteAux [a, b, c, d] 0 0) 4 =
      [a, b, c, d] := by
  rcases ha with rfl | rfl | rfl | rfl <;> rcases hb with rfl | rfl | rfl | rfl <;>
    rcases hc with rfl | rfl | rfl | rfl <;> rcases hd with rfl | rfl | rfl | rfl <;>
    decide

theorem decode_encode_aux :
    ∀ n (s : List Char), s.length ≤ n →
      (∀ c ∈ s, c = 'A' ∨ c = 'C' ∨ c = 'G' ∨ c = 'T') →
      DnaBinaryDecoder.decodeDNAAux (DnaBinaryDecoder.encodeDNA s) s.length = s := by
  intro n
  induction n with
  | zero =>
    intro s hs _
    have hnil : s = [] := List.length_eq_zero.mp (Nat.le_zero.mp hs)
    subst hnil
    rfl
  | succ n ih =>
    intro s hs hall
    match s with
    | [] => rfl
    | [a] =>
      have ha := hall a (by simp)
      rcases ha with rfl | rfl | rfl | rfl <;> decide
    | [a, b] =>
      have ha := hall a (by simp)
      have hb := hall b (by simp)
      rcases ha with rfl | rfl | rfl | rfl <;> rcases hb with rfl | rfl | rfl | rfl <;>
        decide
    | [a, b, c] =>
      have ha := hall a (by simp)
      have hb := hall b (by simp)
      have hc := hall c (by simp)
      rcases ha with rfl | rfl | rfl | rfl <;> rcases hb with rfl | rfl | rfl | rfl <;>
        rcases hc with rfl | rfl | rfl | rfl <;> decide
    | a :: b :: c :: d :: t =>
      have ha := hall a (by simp)
      have hb := hall b (by simp)
      have hc := hall c (by simp)
      have hd := hall d (by simp)
      have ht : ∀ x ∈ t, x = 'A' ∨ x = 'C' ∨ x = 'G' ∨ x = 'T' := fun x hx =>
        hall x (by simp [hx])
      have hlen : t.length ≤ n := by
        simp only [List.length_cons] at hs
        omega
      show DnaBinaryDecoder.decodeDNAAux
          (DnaBinaryDecoder.chunkByteAux [a, b, c, d] 0 0 ::
            DnaBinaryDecoder.encodeDNA t)
          (a :: b :: c :: d :: t).length = a :: b :: c :: d :: t
      rw [show (a :: b :: c :: d :: t).length = t.length + 4 from by
            simp only [List.length_cons],
        decodeDNAAux_cons, decode_chunk4 a b c d ha hb hc hd, ih t hlen ht]
      simp

/-- C2: for every non-empty sequence over A, C, G, T the codec demo
decode applied to the encode output and the original length reproduces
the sequence exactly. -/
theorem codec_roundtrip (s : List Char) (hne : s ≠ [])
    (hall : ∀ c ∈ s, c = 'A' ∨ c = 'C' ∨ c = 'G' ∨ c = 'T') :
    DnaBinaryDecoder.decodeDNA (DnaBinaryDecoder.encodeDNA s) s.length = s :=
  decode_encode_aux s.length s (Nat.le_refl _) hall

/-- C2 witness: the round trip evaluated on ACGTTGC. -/
theorem codec_roundtrip_witness :
    ("ACGTTGC".toList ≠ []) ∧
    (∀ c ∈ "ACGTTGC".toList, c = 'A' ∨ c = 'C' ∨ c = 'G' ∨ c = 'T') ∧
    DnaBinaryDecoder.decodeDNA (DnaBinaryDecoder.encodeDNA "ACGTTGC".toList)
      "ACGTTGC".toList.length = "ACGTTGC".toList :=
  ⟨by decide, by decide, codec_roundtrip "ACGTTGC".toList (by decide) (by decide)⟩
